import Mathlib

/-!
Verification of the core of `ddcutil-gtk`: the persistent privileged-session
protocol (`privileged_helper.py`), the direct-transport permission heuristic
and the output parsers (`ddcutil.py`), and the monitor data model
(`monitor.py`).  Python functions are shallowly embedded as executable Lean
functions over `String`/`List Char`; the read loop of the session is driven
by an explicit list of scripted read events.
-/

set_option maxRecDepth 4000

namespace DdcutilGtk

/-! ### Python string primitives, modelled at the character level -/

/-- Python's whitespace test, as used by `str.strip` / `str.split()`. -/
def pyIsSpace (c : Char) : Bool := c.isWhitespace

/-- Python `str.strip()` on a character list. -/
def stripChars (cs : List Char) : List Char :=
  ((cs.dropWhile pyIsSpace).reverse.dropWhile pyIsSpace).reverse

/-- Python `str.strip()`. -/
def pystrip (s : String) : String := String.mk (stripChars s.data)

/-- Python `str.lower()` (ASCII case folding). -/
def pylower (s : String) : String := String.mk (s.data.map Char.toLower)

/-- If `pat` is a prefix of `cs`, return the rest of `cs`. -/
def chopPre : List Char → List Char → Option (List Char)
  | [], cs => some cs
  | _, [] => none
  | p :: ps, c :: cs => if c = p then chopPre ps cs else none

/-- Python `str.startswith`. -/
def startsL (pat cs : List Char) : Bool := (chopPre pat cs).isSome

/-- Python substring test `pat in hay`. -/
def hasSub (pat : List Char) : List Char → Bool
  | [] => pat.isEmpty
  | c :: rest => startsL pat (c :: rest) || hasSub pat rest

/-- Python `pat in hay` on strings. -/
def containsStr (hay pat : String) : Bool := hasSub pat.data hay.data

/-- Python `str.split()` (split on whitespace runs, no empty tokens). -/
def wsSplit : List Char → List (List Char)
  | [] => []
  | c :: rest =>
    let ps := wsSplit rest
    if pyIsSpace c then ps
    else
      match rest with
      | [] => [[c]]
      | r :: _ =>
        if pyIsSpace r then [c] :: ps
        else
          match ps with
          | t :: ts => (c :: t) :: ts
          | [] => [[c]]

/-- Split a character list at every `'\n'`. -/
def splitOnNl : List Char → List (List Char)
  | [] => [[]]
  | c :: rest =>
    if c = '\n' then [] :: splitOnNl rest
    else
      match splitOnNl rest with
      | l :: ls => (c :: l) :: ls
      | [] => [[c]]

/-- Python `str.splitlines()` for `'\n'`-terminated text: split at newlines
and drop a final empty piece. -/
def pySplitlines (s : String) : List String :=
  (match (splitOnNl s.data).getLast? with
   | some [] => (splitOnNl s.data).dropLast
   | _ => splitOnNl s.data).map String.mk

/-- Join character lists with `'\n'` (Python `"\n".join`). -/
def nlJoin : List (List Char) → List Char
  | [] => []
  | [x] => x
  | x :: y :: rest => x ++ '\n' :: nlJoin (y :: rest)

/-- Python `"\n".join` on strings. -/
def joinLines (ls : List String) : String := String.mk (nlJoin (ls.map String.data))

/-! ### Python `int(s, base)` -/

/-- Value of a digit character in the given base (Python semantics: `0-9`,
`a-z`, `A-Z`, rejected when at least `base`). -/
def digitVal? (base : Nat) (c : Char) : Option Nat :=
  let v : Option Nat :=
    if '0' ≤ c ∧ c ≤ '9' then some (c.toNat - 48)
    else if 'a' ≤ c ∧ c ≤ 'z' then some (c.toNat - 87)
    else if 'A' ≤ c ∧ c ≤ 'Z' then some (c.toNat - 55)
    else none
  match v with
  | some d => if d < base then some d else none
  | none => none

/-- Digit run after the first digit: single underscores are allowed between
digits, as in Python numeric literals. -/
def pyDigitsLoop (base : Nat) : Nat → List Char → Option Nat
  | acc, [] => some acc
  | acc, '_' :: c :: rest =>
    match digitVal? base c with
    | some d => pyDigitsLoop base (acc * base + d) rest
    | none => none
  | acc, c :: rest =>
    match digitVal? base c with
    | some d => pyDigitsLoop base (acc * base + d) rest
    | none => none

/-- A non-empty digit run (first character must be a digit). -/
def pyDigitRun (base : Nat) : List Char → Option Nat
  | [] => none
  | c :: rest =>
    match digitVal? base c with
    | some d => pyDigitsLoop base d rest
    | none => none

/-- Unsigned part of Python `int(s, base)`: base 16 additionally accepts a
`0x`/`0X` prefix (optionally followed by one underscore). -/
def pyUnsigned (base : Nat) (cs : List Char) : Option Nat :=
  if base = 16 then
    match cs with
    | '0' :: 'x' :: '_' :: rest => pyDigitRun 16 rest
    | '0' :: 'x' :: rest => pyDigitRun 16 rest
    | '0' :: 'X' :: '_' :: rest => pyDigitRun 16 rest
    | '0' :: 'X' :: rest => pyDigitRun 16 rest
    | _ => pyDigitRun 16 cs
  else pyDigitRun base cs

/-- Python `int(s, base)`: surrounding whitespace stripped, optional sign,
non-empty digit run; `none` models the `ValueError`. -/
def pyInt? (base : Nat) (s : String) : Option Int :=
  match stripChars s.data with
  | '+' :: rest => (pyUnsigned base rest).map (fun n => (n : Int))
  | '-' :: rest => (pyUnsigned base rest).map (fun n => -(n : Int))
  | rest => (pyUnsigned base rest).map (fun n => (n : Int))

/-! ### Privileged session (`PrivilegedHelper._run_command` / `run_ddcutil`)

The asynchronous read loop is driven by a scripted list of read events: each
`readline` either yields a line, yields zero bytes (stream closed), or times
out. -/

/-- The mutable session state: `_process is not None` and `_authenticated`. -/
structure HelperState where
  hasProcess : Bool
  authenticated : Bool
deriving DecidableEq, Repr

/-- One result of `await readline()` (possibly under `wait_for`). -/
inductive ReadEvent
  | line (s : String)
  | eofRead
  | timedOut
deriving DecidableEq, Repr

/-- Outcome of `_run_command`/`run_ddcutil`: a returned `(stdout, stderr,
returncode)` triple, one of the two `RuntimeError`s, or `blocked` — a model
artifact meaning the scripted event list ran out while the loop was still
reading. -/
inductive RunOutcome
  | result (stdout stderr : String) (returncode : Int)
  | notRunning
  | notAuthenticated
  | blocked
deriving DecidableEq, Repr

/-- The unique marker delimiting one command's output. -/
def MARKER : String := "___END_CMD___"

/-- Python `line.rstrip('\n')`. -/
def rstripNl (s : String) : String :=
  String.mk ((s.data.reverse.dropWhile (fun c => c = '\n')).reverse)

/-- The `while True` read loop of `_run_command`: accumulate lines until a
line starting with the marker arrives (parse the exit code from its
remainder, `-1` if unparsable), the stream closes (clear the session state,
keep the initial exit code `0`), or a read times out. -/
def runLoop (st : HelperState) (acc : List String) :
    List ReadEvent → RunOutcome × HelperState
  | [] => (.blocked, st)
  | .timedOut :: _ => (.result "" "Command timed out" (-1), st)
  | .eofRead :: _ =>
    (.result (joinLines acc.reverse) "" 0, ⟨false, false⟩)
  | .line raw :: rest =>
    let ls := rstripNl raw
    if startsL MARKER.data ls.data then
      let rc : Int :=
        match pyInt? 10 (String.mk (ls.data.drop MARKER.length)) with
        | some k => k
        | none => -1
      (.result (joinLines acc.reverse) "" rc, st)
    else runLoop st (ls :: acc) rest

/-- `PrivilegedHelper._run_command`: guard that the process is running, then
run the read loop.  The command string only determines the line written to
the process's stdin, which the loop does not consume. -/
def runCommand (_command : String) (st : HelperState) (events : List ReadEvent) :
    RunOutcome × HelperState :=
  if st.hasProcess then runLoop st [] events else (.notRunning, st)

/-- Resolved path of the external tool (`shutil.which` fallback). -/
def DDCUTIL_PATH : String := "/usr/bin/ddcutil"

/-- `PrivilegedHelper.run_ddcutil`: reject when there is no process or the
session is not authenticated, else run the joined command line. -/
def runDdcutil (args : List String) (st : HelperState) (events : List ReadEvent) :
    RunOutcome × HelperState :=
  if st.hasProcess ∧ st.authenticated then
    runCommand (DDCUTIL_PATH ++ " " ++ String.intercalate " " args) st events
  else (.notAuthenticated, st)

/-! ### Direct transport (`DDCUtil._run_async`, non-privileged path) -/

/-- The two ways the awaited subprocess interaction can end: `communicate()`
returns the decoded output streams and the exit status, or `wait_for` raises
`asyncio.TimeoutError`. -/
inductive DirectEvent
  | completed (stdout_str stderr_str : String) (returncode : Int)
  | timedOut
deriving DecidableEq, Repr

/-- Result of `_run_async`: a returned triple, the distinguished
`PermissionError`, or a generic `DDCUtilError`. -/
inductive TransportOutcome
  | ok (stdout stderr : String) (returncode : Int)
  | permissionDenied
  | ddcutilError (msg : String)
deriving DecidableEq, Repr

/-- `DDCUtil._run_async` on the direct (spawn-per-call) path: on a non-zero
exit status whose `stderr`, lowercased, contains `"permission"` or
`"access"`, raise `PermissionError`; else return the triple; on timeout
raise a generic `DDCUtilError`. -/
def runAsyncDirect (args : List String) (ev : DirectEvent) : TransportOutcome :=
  match ev with
  | .completed stdout_str stderr_str returncode =>
    if returncode != 0 &&
        (containsStr (pylower stderr_str) "permission" ||
         containsStr (pylower stderr_str) "access") then
      .permissionDenied
    else .ok stdout_str stderr_str returncode
  | .timedOut => .ddcutilError ("ddcutil command timed out: " ++ String.intercalate " " args)

/-! ### Monitor data model (`monitor.py`) -/

/-- `VCPValue` of `ddcutil.py` (Python ints are unbounded, hence `Int`). -/
structure VCPValue where
  code : Int
  current : Int
  maximum : Int
  name : String
deriving DecidableEq, Repr

/-- The `Monitor` dataclass; the Python `set`/`dict` fields become lists. -/
structure Monitor where
  display_number : Nat
  i2c_bus : Int
  manufacturer : String
  model : String
  serial : String
  vcp_values : List (Int × VCPValue)
  supported_features : List Nat
  feature_options : List (Nat × List (Nat × String))
  is_loading : Bool
deriving DecidableEq, Repr

/-- `Monitor.supports_feature`: an empty capability set means "assume
supported"; otherwise membership. -/
def Monitor.supports_feature (m : Monitor) (feature_code : Nat) : Bool :=
  if m.supported_features.isEmpty then true
  else m.supported_features.contains feature_code

/-! ### Session protocol theorems -/

/-- Reading a block of non-marker lines just accumulates them (rstripped). -/
theorem runLoop_lines (st : HelperState) (evs : List ReadEvent) :
    ∀ (lines : List String) (acc : List String),
      (∀ l ∈ lines, startsL MARKER.data (rstripNl l).data = false) →
      runLoop st acc (lines.map ReadEvent.line ++ evs) =
        runLoop st ((lines.map rstripNl).reverse ++ acc) evs := by
  intro lines
  induction lines with
  | nil => intro acc _; rfl
  | cons l rest ih =>
    intro acc h
    simp only [List.map_cons, List.cons_append, runLoop, h l (List.mem_cons_self l rest),
      Bool.false_eq_true, if_false, List.append_eq]
    rw [ih (rstripNl l :: acc) (fun x hx => h x (List.mem_cons_of_mem _ hx))]
    simp [List.append_assoc]

/-- C1: when the process output is zero or more non-marker lines followed by
a marker line, `_run_command` returns the non-marker lines joined with
newlines and the exit code parsed from the text after the marker (−1 when
unparsable). -/
theorem run_command_protocol (st : HelperState) (hp : st.hasProcess = true)
    (cmd : String) (lines : List String) (mline : String)
    (hnm : ∀ l ∈ lines, startsL MARKER.data (rstripNl l).data = false)
    (hm : startsL MARKER.data (rstripNl mline).data = true) :
    runCommand cmd st (lines.map ReadEvent.line ++ [ReadEvent.line mline]) =
      (RunOutcome.result (joinLines (lines.map rstripNl)) ""
        (match pyInt? 10 (String.mk ((rstripNl mline).data.drop MARKER.length)) with
         | some k => k
         | none => -1), st) := by
  unfold runCommand
  rw [hp, if_pos rfl, runLoop_lines st _ lines [] hnm]
  simp only [runLoop, hm, if_true, List.append_nil, List.reverse_reverse]

/-- C1 witness: the simulated process emits `hi` then `___END_CMD___0` in
response to `echo hi`; the call returns stdout `"hi"` and exit status 0. -/
theorem run_command_protocol_witness :
    runCommand "echo hi" ⟨true, true⟩
        [ReadEvent.line "hi", ReadEvent.line "___END_CMD___0"] =
      (RunOutcome.result "hi" "" 0, ⟨true, true⟩) := by
  have h := run_command_protocol ⟨true, true⟩ rfl "echo hi" ["hi"] "___END_CMD___0"
    (by decide) (by decide)
  rw [show ([ReadEvent.line "hi", ReadEvent.line "___END_CMD___0"]
      = List.map ReadEvent.line ["hi"] ++ [ReadEvent.line "___END_CMD___0"]) from rfl, h]
  decide

/-- C2 counterexample: with the output stream closing (zero-length read)
before any marker line, the call does not fail — it returns a normal
`(stdout, "", 0)` triple, indistinguishable from a successful exit. -/
theorem session_eof_counterexample :
    runCommand "echo hi" ⟨true, true⟩ [ReadEvent.eofRead] =
      (RunOutcome.result "" "" 0, ⟨false, false⟩) := by decide

/-- C2 (amended): when the output stream closes before a marker line, the
session is cleared (authenticated flag false, process handle gone) and every
subsequent `run_ddcutil` call fails with the not-authenticated error; the
interrupted call itself, however, returns the accumulated lines with exit
code 0 rather than failing. -/
theorem session_eof_terminates (st : HelperState) (hp : st.hasProcess = true)
    (cmd : String) (lines : List String) (rest : List ReadEvent)
    (hnm : ∀ l ∈ lines, startsL MARKER.data (rstripNl l).data = false) :
    runCommand cmd st (lines.map ReadEvent.line ++ ReadEvent.eofRead :: rest) =
      (RunOutcome.result (joinLines (lines.map rstripNl)) "" 0, ⟨false, false⟩)
    ∧ ∀ args events, runDdcutil args ⟨false, false⟩ events =
        (RunOutcome.notAuthenticated, ⟨false, false⟩) := by
  constructor
  · unfold runCommand
    rw [hp, if_pos rfl, runLoop_lines st _ lines [] hnm]
    simp only [runLoop, List.append_nil, List.reverse_reverse]
  · intro args events
    simp [runDdcutil]

/-- C2 witness: concrete instance of the amended claim. -/
theorem session_eof_terminates_witness :
    runCommand "echo hi" ⟨true, true⟩ [ReadEvent.line "partial", ReadEvent.eofRead] =
      (RunOutcome.result "partial" "" 0, ⟨false, false⟩)
    ∧ runDdcutil ["detect"] ⟨false, false⟩ [] =
        (RunOutcome.notAuthenticated, ⟨false, false⟩) := by
  have h := session_eof_terminates ⟨true, true⟩ rfl "echo hi" ["partial"] []
    (by decide)
  exact ⟨by rw [show ([ReadEvent.line "partial", ReadEvent.eofRead]
      = List.map ReadEvent.line ["partial"] ++ ReadEvent.eofRead :: []) from rfl, h.1]; decide,
    h.2 ["detect"] []⟩

/-- C7: a timeout on the first read returns the timeout triple and leaves
the session state untouched, so subsequent calls are still dispatched to the
read loop rather than rejected. -/
theorem session_timeout_keeps_session (st : HelperState) (hp : st.hasProcess = true)
    (cmd : String) (evs : List ReadEvent) :
    runCommand cmd st (ReadEvent.timedOut :: evs) =
      (RunOutcome.result "" "Command timed out" (-1), st)
    ∧ (st.authenticated = true → ∀ args evs2,
        runDdcutil args st evs2 =
          runCommand (DDCUTIL_PATH ++ " " ++ String.intercalate " " args) st evs2) := by
  constructor
  · unfold runCommand
    rw [hp, if_pos rfl]
    rfl
  · intro ha args evs2
    unfold runDdcutil
    rw [if_pos ⟨hp, ha⟩]

/-- C7 witness. -/
theorem session_timeout_keeps_session_witness :
    runCommand "slow" ⟨true, true⟩ [ReadEvent.timedOut] =
      (RunOutcome.result "" "Command timed out" (-1), ⟨true, true⟩)
    ∧ runDdcutil ["detect"] ⟨true, true⟩ [] =
        runCommand (DDCUTIL_PATH ++ " " ++ String.intercalate " " ["detect"]) ⟨true, true⟩ [] :=
  ⟨(session_timeout_keeps_session ⟨true, true⟩ rfl "slow" []).1,
   (session_timeout_keeps_session ⟨true, true⟩ rfl "slow" []).2 rfl ["detect"] []⟩

/-- C10: a session command that completes by reading a marker line returns a
triple whose stderr component is the empty string, and the direct
transport's permission heuristic applied to an empty stderr never yields
`PermissionDenied`. -/
theorem session_stderr_empty (st : HelperState) (hp : st.hasProcess = true)
    (cmd : String) (lines : List String) (mline : String) (evs : List ReadEvent)
    (hnm : ∀ l ∈ lines, startsL MARKER.data (rstripNl l).data = false)
    (hm : startsL MARKER.data (rstripNl mline).data = true) :
    (∃ rc, (runCommand cmd st (lines.map ReadEvent.line ++ ReadEvent.line mline :: evs)).1 =
        RunOutcome.result (joinLines (lines.map rstripNl)) "" rc)
    ∧ ∀ (args : List String) (stdout : String) (code : Int),
        runAsyncDirect args (DirectEvent.completed stdout "" code) ≠
          TransportOutcome.permissionDenied := by
  constructor
  · refine ⟨(match pyInt? 10 (String.mk ((rstripNl mline).data.drop MARKER.length)) with
      | some k => k
      | none => -1), ?_⟩
    unfold runCommand
    rw [hp, if_pos rfl, runLoop_lines st (ReadEvent.line mline :: evs) lines [] hnm]
    simp only [runLoop, hm, if_true, List.append_nil, List.reverse_reverse]
  · intro args stdout code
    have hperm : containsStr (pylower "") "permission" = false := by decide
    have hacc : containsStr (pylower "") "access" = false := by decide
    simp [runAsyncDirect, hperm, hacc]

/-- C10 witness. -/
theorem session_stderr_empty_witness :
    (∃ rc, (runCommand "getvcp" ⟨true, true⟩
        [ReadEvent.line "VCP 10 C 50 100", ReadEvent.line "___END_CMD___0"]).1 =
      RunOutcome.result "VCP 10 C 50 100" "" rc)
    ∧ runAsyncDirect ["detect"] (DirectEvent.completed "out" "" 1) ≠
        TransportOutcome.permissionDenied := by
  have h := session_stderr_empty ⟨true, true⟩ rfl "getvcp" ["VCP 10 C 50 100"]
    "___END_CMD___0" [] (by decide) (by decide)
  have hj : joinLines (List.map rstripNl ["VCP 10 C 50 100"]) = "VCP 10 C 50 100" := by decide
  refine ⟨?_, h.2 ["detect"] "out" 1⟩
  obtain ⟨rc, hrc⟩ := h.1
  rw [hj] at hrc
  exact ⟨rc, hrc⟩

/-- C3: a direct-transport execution with non-zero exit status whose
lowercased stderr contains `"permission"` or `"access"` fails with the
distinguished `PermissionDenied` condition. -/
theorem direct_permission_denied (args : List String) (stdout stderr : String)
    (code : Int) (hc : code ≠ 0)
    (hs : containsStr (pylower stderr) "permission" = true ∨
          containsStr (pylower stderr) "access" = true) :
    runAsyncDirect args (DirectEvent.completed stdout stderr code) =
      TransportOutcome.permissionDenied := by
  unfold runAsyncDirect
  have hb : (code != 0) = true := by simpa using hc
  rcases hs with h | h <;> simp [hb, h]

/-- C3 witness: exit status 1 with stderr
`"Error: Permission denied accessing /dev/i2c-3"` yields `PermissionDenied`. -/
theorem direct_permission_denied_witness :
    runAsyncDirect ["detect"]
        (DirectEvent.completed "" "Error: Permission denied accessing /dev/i2c-3" 1) =
      TransportOutcome.permissionDenied :=
  direct_permission_denied ["detect"] "" "Error: Permission denied accessing /dev/i2c-3" 1
    (by decide) (Or.inl (by decide))

/-- C8: an empty supported-feature set means every feature is reported
supported; a non-empty set is consulted by membership. -/
theorem supports_feature_empty_policy (m : Monitor) :
    (m.supported_features = [] → ∀ code, m.supports_feature code = true)
    ∧ (m.supported_features ≠ [] → ∀ code,
        (m.supports_feature code = true ↔ code ∈ m.supported_features)) := by
  constructor
  · intro h code
    simp [Monitor.supports_feature, h]
  · intro h code
    simp [Monitor.supports_feature, List.isEmpty_iff, h]

/-- C8 witness: both the empty and the populated capability-set cases. -/
theorem supports_feature_empty_policy_witness :
    (Monitor.supports_feature
        ⟨1, 3, "A", "B", "S", [], [], [], false⟩ 0x62 = true)
    ∧ (Monitor.supports_feature
        ⟨1, 3, "A", "B", "S", [], [0x10, 0x60], [], false⟩ 0x10 = true)
    ∧ ¬ (Monitor.supports_feature
        ⟨1, 3, "A", "B", "S", [], [0x10, 0x60], [], false⟩ 0x62 = true) := by
  refine ⟨(supports_feature_empty_policy _).1 rfl 0x62,
    ((supports_feature_empty_policy _).2 (by decide) 0x10).mpr (by decide),
    fun h => ?_⟩
  have := ((supports_feature_empty_policy
    ⟨1, 3, "A", "B", "S", [], [0x10, 0x60], [], false⟩).2 (by decide) 0x62).mp h
  revert this
  decide

/-! ### Feature-value parser (`DDCUtil._parse_getvcp_output_multiple`) -/

/-- Lowercase hexadecimal digits of a natural number. -/
def hexCharsLower (n : Nat) : List Char := Nat.toDigits 16 n

/-- Python `hex(n)`. -/
def pyHexRepr (n : Int) : String :=
  if n < 0 then String.mk ('-' :: '0' :: 'x' :: hexCharsLower n.natAbs)
  else String.mk ('0' :: 'x' :: hexCharsLower n.natAbs)

/-- `DDCUtil.FEATURE_NAMES`. -/
def FEATURE_NAMES (code : Int) : Option String :=
  match code with
  | 0x10 => some "Brightness"
  | 0x12 => some "Contrast"
  | 0x13 => some "Backlight"
  | 0x14 => some "Color Preset"
  | 0x16 => some "Red Gain"
  | 0x18 => some "Green Gain"
  | 0x1A => some "Blue Gain"
  | 0x60 => some "Input Source"
  | 0x62 => some "Volume"
  | 0x8D => some "Audio Mute"
  | 0x87 => some "Sharpness"
  | 0xDC => some "Display Mode"
  | _ => none

/-- `FEATURE_NAMES.get(code, f"Feature {hex(code)}")`. -/
def vcpName (code : Int) : String :=
  (FEATURE_NAMES code).getD ("Feature " ++ pyHexRepr code)

/-- One line of `_parse_getvcp_output_multiple`: strip, require the `VCP`
keyword, split on whitespace, parse the hex feature code, then dispatch on
the type tag (`C` with optional maximum defaulting to 100; `SNC`/`NC` with a
decimal or `x`-prefixed hex value and fixed maximum 255).  Any parse failure
skips the line. -/
def parseGetvcpLine (results : Int → Option VCPValue) (rawLine : String) :
    Int → Option VCPValue :=
  let line := stripChars rawLine.data
  if startsL "VCP".data line then
    match wsSplit line with
    | _ :: t1 :: t2 :: t3 :: ts =>
      match pyInt? 16 (String.mk t1) with
      | none => results
      | some code =>
        if t2 = ['C'] then
          match pyInt? 10 (String.mk t3) with
          | none => results
          | some current =>
            match ts with
            | [] =>
              fun c => if c = code then some ⟨code, current, 100, vcpName code⟩ else results c
            | t4 :: _ =>
              match pyInt? 10 (String.mk t4) with
              | none => results
              | some maximum =>
                fun c => if c = code then some ⟨code, current, maximum, vcpName code⟩ else results c
        else if t2 = ['S', 'N', 'C'] ∨ t2 = ['N', 'C'] then
          if startsL ['x'] t3 then
            match pyInt? 16 (String.mk t3.tail) with
            | none => results
            | some current =>
              fun c => if c = code then some ⟨code, current, 255, vcpName code⟩ else results c
          else
            match pyInt? 10 (String.mk t3) with
            | none => results
            | some current =>
              fun c => if c = code then some ⟨code, current, 255, vcpName code⟩ else results c
        else results
    | _ => results
  else results

/-- `DDCUtil._parse_getvcp_output_multiple`: fold the line handler over the
split lines; the result maps feature codes to parsed values. -/
def parseGetvcpOutputMultiple (output : String) : Int → Option VCPValue :=
  (pySplitlines output).foldl parseGetvcpLine (fun _ => none)

/-- The claim's reading of a discrete (`SNC`/`NC`) value token: decimal, or
hexadecimal when prefixed with a lowercase `x`. -/
def discreteValueRead (t : List Char) : Option Int :=
  if startsL ['x'] t then pyInt? 16 (String.mk t.tail) else pyInt? 10 (String.mk t)

/-! ### Line-splitting helper lemmas -/

theorem splitOnNl_no_nl (cs : List Char) (h : '\n' ∉ cs) : splitOnNl cs = [cs] := by
  induction cs with
  | nil => rfl
  | cons c rest ih =>
    have hc : ¬ (c = '\n') := fun hh => h (hh ▸ List.mem_cons_self c rest)
    simp only [splitOnNl, if_neg hc, ih (fun hm => h (List.mem_cons_of_mem _ hm))]

theorem pySplitlines_single (s : String) (h : '\n' ∉ s.data) (hne : s.data ≠ []) :
    pySplitlines s = [s] := by
  obtain ⟨c, cs, hcs⟩ : ∃ c cs, s.data = c :: cs := by
    cases hd : s.data with
    | nil => exact absurd hd hne
    | cons c cs => exact ⟨c, cs, rfl⟩
  unfold pySplitlines
  rw [splitOnNl_no_nl s.data h, hcs]
  simp only [List.getLast?_singleton, List.map]
  rw [← hcs]

/-- C4 (amended): a `C`-tagged line whose current token parses as a
**nonnegative** number with current ≤ maximum yields a `FeatureValue` with
`0 ≤ current ≤ maximum` (maximum from the fifth token when present, else
100); an `SNC`/`NC` line's value token is read as decimal, or hexadecimal
when `x`-prefixed, and its parsed maximum is exactly 255. -/
theorem getvcp_parse_bounds :
    (∀ (line : String) (t0 t1 t3 : List Char) (ts : List (List Char)) (code cur mx : Int),
      '\n' ∉ line.data →
      startsL "VCP".data (stripChars line.data) = true →
      wsSplit (stripChars line.data) = t0 :: t1 :: ['C'] :: t3 :: ts →
      pyInt? 16 (String.mk t1) = some code →
      pyInt? 10 (String.mk t3) = some cur →
      ((ts = [] ∧ mx = 100) ∨
        (∃ t4 ts', ts = t4 :: ts' ∧ pyInt? 10 (String.mk t4) = some mx)) →
      0 ≤ cur → cur ≤ mx →
      ∃ v, parseGetvcpOutputMultiple line code = some v ∧
        0 ≤ v.current ∧ v.current ≤ v.maximum ∧ v.maximum = mx ∧ v.current = cur)
    ∧ (∀ (line : String) (t0 t1 t2 t3 : List Char) (ts : List (List Char)) (code cur : Int),
      '\n' ∉ line.data →
      startsL "VCP".data (stripChars line.data) = true →
      wsSplit (stripChars line.data) = t0 :: t1 :: t2 :: t3 :: ts →
      (t2 = ['S', 'N', 'C'] ∨ t2 = ['N', 'C']) →
      pyInt? 16 (String.mk t1) = some code →
      discreteValueRead t3 = some cur →
      ∃ v, parseGetvcpOutputMultiple line code = some v ∧
        v.current = cur ∧ v.maximum = 255) := by
  have single : ∀ (line : String), '\n' ∉ line.data →
      startsL "VCP".data (stripChars line.data) = true →
      parseGetvcpOutputMultiple line = parseGetvcpLine (fun _ => none) line := by
    intro line hnl hst
    have hne : line.data ≠ [] := by
      intro hd
      rw [hd] at hst
      exact absurd hst (by decide)
    unfold parseGetvcpOutputMultiple
    rw [pySplitlines_single line hnl hne]
    rfl
  constructor
  · intro line t0 t1 t3 ts code cur mx hnl hst hsplit hcode hcur hmx h0 hcm
    rw [single line hnl hst]
    simp only [parseGetvcpLine, hst, if_true, hsplit, hcode, hcur]
    rcases hmx with ⟨hts, hmx⟩ | ⟨t4, ts', hts, ht4⟩
    · subst hts; subst hmx
      exact ⟨⟨code, cur, 100, vcpName code⟩, by simp, h0, hcm, rfl, rfl⟩
    · subst hts
      simp only [ht4]
      exact ⟨⟨code, cur, mx, vcpName code⟩, by simp, h0, hcm, rfl, rfl⟩
  · intro line t0 t1 t2 t3 ts code cur hnl hst hsplit htag hcode hval
    rw [single line hnl hst]
    simp only [parseGetvcpLine, hst, if_true, hsplit, hcode]
    have ht2c : ¬ (t2 = ['C']) := by
      rcases htag with h | h <;> subst h <;> decide
    rw [if_neg ht2c, if_pos htag]
    by_cases hx : startsL ['x'] t3 = true
    · rw [if_pos hx]
      rw [discreteValueRead, if_pos hx] at hval
      simp only [hval]
      exact ⟨⟨code, cur, 255, vcpName code⟩, by simp, rfl, rfl⟩
    · rw [if_neg hx]
      rw [discreteValueRead, if_neg hx] at hval
      simp only [hval]
      exact ⟨⟨code, cur, 255, vcpName code⟩, by simp, rfl, rfl⟩

/-- C4 witness: the continuous line `VCP 10 C 70 100` and the discrete line
`VCP 60 SNC x11`. -/
theorem getvcp_parse_bounds_witness :
    (∃ v, parseGetvcpOutputMultiple "VCP 10 C 70 100" 0x10 = some v ∧
      0 ≤ v.current ∧ v.current ≤ v.maximum ∧ v.maximum = 100 ∧ v.current = 70)
    ∧ (∃ v, parseGetvcpOutputMultiple "VCP 60 SNC x11" 0x60 = some v ∧
      v.current = 0x11 ∧ v.maximum = 255) :=
  ⟨getvcp_parse_bounds.1 "VCP 10 C 70 100" "VCP".data "10".data "70".data ["100".data]
      0x10 70 100 (by decide) (by decide) (by decide) (by decide) (by decide)
      (Or.inr ⟨"100".data, [], rfl, by decide⟩) (by decide) (by decide),
   getvcp_parse_bounds.2 "VCP 60 SNC x11" "VCP".data "60".data "SNC".data "x11".data []
      0x60 0x11 (by decide) (by decide) (by decide) (Or.inl (by decide))
      (by decide) (by decide)⟩

/-- C4 counterexample: `VCP 10 C -5 100` is a `C`-tagged line whose current
token is a number with current ≤ maximum, yet the parsed value violates
`0 ≤ current`. -/
theorem getvcp_negative_counterexample :
    parseGetvcpOutputMultiple "VCP 10 C -5 100" 0x10 =
      some ⟨0x10, -5, 100, "Brightness"⟩ ∧ ¬ (0 ≤ (-5 : Int)) := by
  exact ⟨by decide, by decide⟩

/-! ### Detection parser (`DDCUtil._parse_detect_output`) -/

/-- `MonitorInfo` of `ddcutil.py`. -/
structure MonitorInfo where
  display_number : Nat
  i2c_bus : Int
  manufacturer : String
  model : String
  serial : String
  edid : String
deriving DecidableEq, Repr

/-- The `current_monitor` dict: `display_number` is set at creation, the
other keys are optional. -/
structure MDict where
  display_number : Nat
  i2c_bus : Option Int
  manufacturer : Option String
  model : Option String
  serial : Option String
  edid : Option String
deriving DecidableEq, Repr

/-- `DDCUtil._create_monitor_info`: defaults for missing keys. -/
def createMonitorInfo (d : MDict) : MonitorInfo :=
  { display_number := d.display_number
    i2c_bus := d.i2c_bus.getD (-1)
    manufacturer := d.manufacturer.getD "Unknown"
    model := d.model.getD "Unknown"
    serial := d.serial.getD ""
    edid := d.edid.getD "" }

/-- Numeric value of a decimal digit string (`int` on a `\d+` regex group). -/
def digitsToNat (ds : List Char) : Nat :=
  ds.foldl (fun a c => a * 10 + (c.toNat - 48)) 0

/-- `re.match(r"Display\s+(\d+)", line)`: the literal word, at least one
whitespace character, then a maximal digit run. -/
def displayMatch (cs : List Char) : Option Nat :=
  match chopPre "Display".data cs with
  | none => none
  | some cs1 =>
    let ws := cs1.takeWhile pyIsSpace
    let ds := (cs1.dropWhile pyIsSpace).takeWhile Char.isDigit
    if ws.isEmpty || ds.isEmpty then none else some (digitsToNat ds)

/-- Attempt of `/dev/i2c-(\d+)` at the start of `cs`. -/
def i2cAt (cs : List Char) : Option Nat :=
  match chopPre "/dev/i2c-".data cs with
  | none => none
  | some cs1 =>
    let ds := cs1.takeWhile Char.isDigit
    if ds.isEmpty then none else some (digitsToNat ds)

/-- `re.search(r"/dev/i2c-(\d+)", value)`: first position where the pattern
matches. -/
def i2cSearch : List Char → Option Nat
  | [] => none
  | c :: rest =>
    match i2cAt (c :: rest) with
    | some n => some n
    | none => i2cSearch rest

/-- The key/value branch of the detection loop: strip the line, skip it when
empty or colon-free, else split at the first `:`, normalize the key
(strip + lower) and the value (strip), and update the field selected by the
`elif` chain (the bus value must additionally contain `/dev/i2c-<n>`). -/
def dictStep (d : MDict) (rawLine : String) : MDict :=
  let line := stripChars rawLine.data
  if line.isEmpty then d
  else if line.contains ':' then
    let key := String.mk ((stripChars (line.takeWhile (fun c => c != ':'))).map Char.toLower)
    let value := String.mk (stripChars ((line.dropWhile (fun c => c != ':')).tail))
    if containsStr key "i2c bus" || key == "i2c bus" then
      match i2cSearch value.data with
      | some busNum => { d with i2c_bus := some (busNum : Int) }
      | none => d
    else if key == "manufacturer" || containsStr key "mfg" then
      { d with manufacturer := some value }
    else if key == "model" then { d with model := some value }
    else if key == "serial" || containsStr key "sn" then
      { d with serial := some value }
    else if key == "edid" then { d with edid := some value }
    else d
  else d

/-- One iteration of the `_parse_detect_output` loop over the state
`(monitors, current_monitor)`: skip blank lines; on a `Display` header flush
the pending record and open a new one when the header regex matches; else
update the pending record (if any) via `dictStep`. -/
def detectLineStep (st : List MonitorInfo × Option MDict) (rawLine : String) :
    List MonitorInfo × Option MDict :=
  let line := stripChars rawLine.data
  if line.isEmpty then st
  else if startsL "Display".data line then
    let ms :=
      match st.2 with
      | some d => st.1 ++ [createMonitorInfo d]
      | none => st.1
    match displayMatch line with
    | some n => (ms, some ⟨n, none, none, none, none, none⟩)
    | none => (ms, st.2)
  else
    match st.2 with
    | none => st
    | some d => (st.1, some (dictStep d rawLine))

/-- Flush of the final pending record ("don't forget the last monitor"). -/
def finalize (st : List MonitorInfo × Option MDict) : List MonitorInfo :=
  match st.2 with
  | some d => st.1 ++ [createMonitorInfo d]
  | none => st.1

/-- `DDCUtil._parse_detect_output`. -/
def parseDetectOutput (output : String) : List MonitorInfo :=
  finalize ((pySplitlines output).foldl detectLineStep ([], none))

/-! Specification side of C5: the per-record fields as "last seen value for
the recognized key". -/

/-- The recognized key classes of the detection parser. -/
inductive KeyClass
  | bus
  | mfg
  | model
  | serial
  | edid
  | other
deriving DecidableEq, Repr

/-- Key classification, mirroring the `elif` chain (first match wins). -/
def classifyKey (key : String) : KeyClass :=
  if containsStr key "i2c bus" || key == "i2c bus" then .bus
  else if key == "manufacturer" || containsStr key "mfg" then .mfg
  else if key == "model" then .model
  else if key == "serial" || containsStr key "sn" then .serial
  else if key == "edid" then .edid
  else .other

/-- The key/value content of one body line: `none` for blank or colon-free
lines, else the normalized key and value. -/
def lineKV (rawLine : String) : Option (String × String) :=
  let line := stripChars rawLine.data
  if line.isEmpty then none
  else if line.contains ':' then
    some (String.mk ((stripChars (line.takeWhile (fun c => c != ':'))).map Char.toLower),
          String.mk (stripChars ((line.dropWhile (fun c => c != ':')).tail)))
  else none

/-- The bus number a body line contributes, if any. -/
def busOf (rawLine : String) : Option Int :=
  match lineKV rawLine with
  | some (k, v) =>
    if classifyKey k = KeyClass.bus then (i2cSearch v.data).map (fun n => (n : Int))
    else none
  | none => none

/-- The string value a body line contributes to the given field, if any. -/
def fieldOf (cls : KeyClass) (rawLine : String) : Option String :=
  match lineKV rawLine with
  | some (k, v) => if classifyKey k = cls then some v else none
  | none => none

/-- The identity the claim predicts for one record: header number plus, for
each recognized field, the last-seen contributed value (with the documented
defaults). -/
def expectedInfo (n : Nat) (body : List String) : MonitorInfo :=
  { display_number := n
    i2c_bus := ((body.filterMap busOf).getLast?).getD (-1)
    manufacturer := ((body.filterMap (fieldOf .mfg)).getLast?).getD "Unknown"
    model := ((body.filterMap (fieldOf .model)).getLast?).getD "Unknown"
    serial := ((body.filterMap (fieldOf .serial)).getLast?).getD ""
    edid := ((body.filterMap (fieldOf .edid)).getLast?).getD "" }

/-- Decimal digit characters. -/
def digitChar10 (n : Nat) : Char := "0123456789".data.getD n '0'

/-- Decimal rendering of a natural number. -/
def natChars (n : Nat) : List Char :=
  if _h : n < 10 then [digitChar10 n]
  else natChars (n / 10) ++ [digitChar10 (n % 10)]
termination_by n
decreasing_by exact Nat.div_lt_self (by omega) (by omega)

/-- The header line of one detection record. -/
def headerLine (n : Nat) : String := String.mk ("Display ".data ++ natChars n)

/-- The lines of a well-formed detection output: one header line per record
followed by that record's body lines. -/
def detectLines (recs : List (Nat × List String)) : List String :=
  recs.flatMap (fun r => headerLine r.1 :: r.2)

/-- A well-formed body line: non-empty, newline-free, and not itself looking
like a record header. -/
def BodyOK (b : String) : Prop :=
  b.data ≠ [] ∧ '\n' ∉ b.data ∧ '\r' ∉ b.data ∧
  startsL "Display".data (stripChars b.data) = false

instance : DecidablePred BodyOK := fun b => by
  unfold BodyOK
  infer_instance

/-! ### Detection parser lemmas -/

theorem chopPre_append (pat rest : List Char) : chopPre pat (pat ++ rest) = some rest := by
  induction pat with
  | nil => simp [chopPre]
  | cons p ps ih => simp [chopPre, ih]

theorem digitChar10_facts : ∀ n, n < 10 →
    (digitChar10 n).isDigit = true ∧ pyIsSpace (digitChar10 n) = false ∧
    (digitChar10 n).toNat - 48 = n ∧ digitChar10 n ≠ '\n' := by decide

theorem natChars_facts (n : Nat) : natChars n ≠ [] ∧
    ∀ c ∈ natChars n, c.isDigit = true ∧ pyIsSpace c = false ∧ c ≠ '\n' := by
  induction n using Nat.strong_induction_on with
  | _ n ih =>
    unfold natChars
    split
    · next h =>
      refine ⟨by simp, ?_⟩
      intro c hc
      simp only [List.mem_singleton] at hc
      subst hc
      exact ⟨(digitChar10_facts n h).1, (digitChar10_facts n h).2.1,
        (digitChar10_facts n h).2.2.2⟩
    · next h =>
      have ih' := ih (n / 10) (Nat.div_lt_self (by omega) (by omega))
      refine ⟨by simp, ?_⟩
      intro c hc
      rcases List.mem_append.mp hc with h1 | h2
      · exact ih'.2 c h1
      · simp only [List.mem_singleton] at h2
        subst h2
        have hlt : n % 10 < 10 := Nat.mod_lt _ (by omega)
        exact ⟨(digitChar10_facts _ hlt).1, (digitChar10_facts _ hlt).2.1,
          (digitChar10_facts _ hlt).2.2.2⟩

theorem digitsToNat_concat (a : List Char) (c : Char) :
    digitsToNat (a ++ [c]) = digitsToNat a * 10 + (c.toNat - 48) := by
  unfold digitsToNat
  rw [List.foldl_append]
  rfl

theorem digitsToNat_natChars (n : Nat) : digitsToNat (natChars n) = n := by
  induction n using Nat.strong_induction_on with
  | _ n ih =>
    unfold natChars
    split
    · next h =>
      show digitsToNat [digitChar10 n] = n
      have := (digitChar10_facts n h).2.2.1
      simp only [digitsToNat, List.foldl]
      omega
    · next h =>
      rw [digitsToNat_concat, ih (n / 10) (Nat.div_lt_self (by omega) (by omega)),
        (digitChar10_facts (n % 10) (Nat.mod_lt _ (by omega))).2.2.1]
      omega

theorem takeWhile_all {p : Char → Bool} :
    ∀ (l : List Char), (∀ c ∈ l, p c = true) → l.takeWhile p = l := by
  intro l h
  induction l with
  | nil => rfl
  | cons c rest ih =>
    rw [List.takeWhile_cons_of_pos (h c (List.mem_cons_self c rest))]
    rw [ih (fun x hx => h x (List.mem_cons_of_mem _ hx))]

theorem natChars_cons (n : Nat) : ∃ c cs, natChars n = c :: cs ∧ pyIsSpace c = false := by
  rcases hd : natChars n with _ | ⟨c, cs⟩
  · exact absurd hd (natChars_facts n).1
  · exact ⟨c, cs, rfl, ((natChars_facts n).2 c (by rw [hd]; exact List.mem_cons_self c cs)).2.1⟩

theorem stripChars_of_ends (cs : List Char)
    (h1 : cs.dropWhile pyIsSpace = cs)
    (h2 : cs.reverse.dropWhile pyIsSpace = cs.reverse) :
    stripChars cs = cs := by
  unfold stripChars
  rw [h1, h2, List.reverse_reverse]

theorem stripChars_header (n : Nat) :
    stripChars ("Display ".data ++ natChars n) = "Display ".data ++ natChars n := by
  apply stripChars_of_ends
  · rw [show ("Display ".data ++ natChars n) = 'D' :: ("isplay ".data ++ natChars n) from rfl]
    exact List.dropWhile_cons_of_neg (by decide)
  · rcases List.eq_nil_or_concat (natChars n) with hnil | ⟨L, a, hla⟩
    · exact absurd hnil (natChars_facts n).1
    · have ha : a ∈ natChars n := by
        rw [hla, List.concat_eq_append]
        exact List.mem_append.mpr (Or.inr (List.mem_singleton.mpr rfl))
      have hsp : pyIsSpace a = false := ((natChars_facts n).2 a ha).2.1
      rw [hla, List.concat_eq_append, ← List.append_assoc, List.reverse_append,
        List.reverse_singleton, List.singleton_append]
      exact List.dropWhile_cons_of_neg (by simp [hsp])

theorem displayMatch_header (n : Nat) :
    displayMatch ("Display ".data ++ natChars n) = some n := by
  have hsplit : "Display ".data ++ natChars n = "Display".data ++ (' ' :: natChars n) := by
    rw [show "Display ".data = "Display".data ++ [' '] from by decide, List.append_assoc]
    rfl
  obtain ⟨c, cs, hcs, hc⟩ := natChars_cons n
  unfold displayMatch
  rw [hsplit, chopPre_append]
  simp only [List.takeWhile_cons_of_pos (show pyIsSpace ' ' = true from rfl),
    List.dropWhile_cons_of_pos (show pyIsSpace ' ' = true from rfl)]
  rw [hcs, List.dropWhile_cons_of_neg (by simp [hc]), ← hcs]
  rw [takeWhile_all (natChars n) (fun x hx => ((natChars_facts n).2 x hx).1)]
  rw [hcs]
  simp only [List.isEmpty_cons, Bool.false_or, Bool.or_false]
  rw [← hcs, digitsToNat_natChars n]
  rfl

/-- Each body line touches each field exactly as `busOf`/`fieldOf` predict:
the update (if any) wins over the previous value. -/
theorem dictStep_fields (d : MDict) (b : String) :
    dictStep d b = ⟨d.display_number,
      (busOf b).or d.i2c_bus,
      (fieldOf .mfg b).or d.manufacturer,
      (fieldOf .model b).or d.model,
      (fieldOf .serial b).or d.serial,
      (fieldOf .edid b).or d.edid⟩ := by
  by_cases he : (stripChars b.data).isEmpty = true
  · have hkv : lineKV b = none := by simp [lineKV, he]
    simp [dictStep, busOf, fieldOf, he, hkv, Option.or]
  · by_cases hc : (stripChars b.data).contains ':' = true
    · have hmem : ':' ∈ stripChars b.data := by simpa using hc
      have hkv : lineKV b = some
          (String.mk ((stripChars ((stripChars b.data).takeWhile (fun c => c != ':'))).map Char.toLower),
           String.mk (stripChars (((stripChars b.data).dropWhile (fun c => c != ':')).tail))) := by
        simp [lineKV, he, hc, hmem]
      simp only [dictStep, he, Bool.false_eq_true, if_false, hc, if_true, busOf, fieldOf, hkv]
      generalize stripChars (((stripChars b.data).dropWhile (fun c => c != ':')).tail) = valData
      generalize String.mk ((stripChars ((stripChars b.data).takeWhile (fun c => c != ':'))).map Char.toLower) = key
      by_cases h1 : (containsStr key "i2c bus" || key == "i2c bus") = true
      · have hck : classifyKey key = KeyClass.bus := by
          unfold classifyKey
          rw [if_pos h1]
        rw [if_pos h1]
        cases hi : i2cSearch valData <;> simp [hi, hck, Option.or]
      · rw [if_neg h1]
        by_cases h2 : (key == "manufacturer" || containsStr key "mfg") = true
        · have hck : classifyKey key = KeyClass.mfg := by
            unfold classifyKey
            rw [if_neg h1, if_pos h2]
          rw [if_pos h2]
          simp [hck, Option.or]
        · rw [if_neg h2]
          by_cases h3 : (key == "model") = true
          · have hck : classifyKey key = KeyClass.model := by
              unfold classifyKey
              rw [if_neg h1, if_neg h2, if_pos h3]
            rw [if_pos h3]
            simp [hck, Option.or]
          · rw [if_neg h3]
            by_cases h4 : (key == "serial" || containsStr key "sn") = true
            · have hck : classifyKey key = KeyClass.serial := by
                unfold classifyKey
                rw [if_neg h1, if_neg h2, if_neg h3, if_pos h4]
              rw [if_pos h4]
              simp [hck, Option.or]
            · rw [if_neg h4]
              by_cases h5 : (key == "edid") = true
              · have hck : classifyKey key = KeyClass.edid := by
                  unfold classifyKey
                  rw [if_neg h1, if_neg h2, if_neg h3, if_neg h4, if_pos h5]
                rw [if_pos h5]
                simp [hck, Option.or]
              · have hck : classifyKey key = KeyClass.other := by
                  unfold classifyKey
                  rw [if_neg h1, if_neg h2, if_neg h3, if_neg h4, if_neg h5]
                rw [if_neg h5]
                simp [hck, Option.or]
    · have hnmem : ':' ∉ stripChars b.data := by simpa using hc
      have hkv : lineKV b = none := by simp [lineKV, he, hnmem]
      simp [dictStep, busOf, fieldOf, he, hnmem, hkv, Option.or]

theorem detectLineStep_body (acc : List MonitorInfo) (d : MDict) (b : String)
    (hb : startsL "Display".data (stripChars b.data) = false) :
    detectLineStep (acc, some d) b = (acc, some (dictStep d b)) := by
  by_cases he : (stripChars b.data).isEmpty = true
  · simp only [detectLineStep, he, if_true]
    rw [show dictStep d b = d from by simp [dictStep, he]]
  · simp only [detectLineStep, he, Bool.false_eq_true, if_false, hb]

theorem fold_body (body : List String) :
    ∀ (acc : List MonitorInfo) (d : MDict),
      (∀ b ∈ body, startsL "Display".data (stripChars b.data) = false) →
      List.foldl detectLineStep (acc, some d) body =
        (acc, some (List.foldl dictStep d body)) := by
  induction body with
  | nil => intro acc d _; rfl
  | cons b rest ih =>
    intro acc d h
    rw [List.foldl_cons, detectLineStep_body acc d b (h b (List.mem_cons_self b rest)),
      ih acc _ (fun x hx => h x (List.mem_cons_of_mem _ hx)), List.foldl_cons]

theorem getLast?_cons_or {α : Type} (v : α) (l : List α) :
    (v :: l).getLast? = (l.getLast?).or (some v) := by
  induction l generalizing v with
  | nil => rfl
  | cons w l' ih =>
    rw [List.getLast?_cons_cons, ih w]
    cases l'.getLast? <;> rfl

theorem foldl_or_getLast? {α : Type} (f : String → Option α) (body : List String) :
    ∀ (x : Option α),
      body.foldl (fun a b => (f b).or a) x = ((body.filterMap f).getLast?).or x := by
  induction body with
  | nil => intro x; rfl
  | cons b rest ih =>
    intro x
    rw [List.foldl_cons, ih ((f b).or x), List.filterMap_cons]
    cases hf : f b with
    | none => rfl
    | some v =>
      rw [getLast?_cons_or]
      cases (rest.filterMap f).getLast? <;> rfl

theorem foldl_dictStep (body : List String) : ∀ (d : MDict),
    body.foldl dictStep d = ⟨d.display_number,
      body.foldl (fun a b => (busOf b).or a) d.i2c_bus,
      body.foldl (fun a b => (fieldOf .mfg b).or a) d.manufacturer,
      body.foldl (fun a b => (fieldOf .model b).or a) d.model,
      body.foldl (fun a b => (fieldOf .serial b).or a) d.serial,
      body.foldl (fun a b => (fieldOf .edid b).or a) d.edid⟩ := by
  induction body with
  | nil => intro d; rfl
  | cons b rest ih =>
    intro d
    rw [List.foldl_cons, ih (dictStep d b), dictStep_fields]
    rfl

theorem create_fold (n : Nat) (body : List String) :
    createMonitorInfo (body.foldl dictStep ⟨n, none, none, none, none, none⟩) =
      expectedInfo n body := by
  rw [foldl_dictStep]
  unfold createMonitorInfo expectedInfo
  simp only [foldl_or_getLast?, Option.or_none]

theorem detectLineStep_header (st : List MonitorInfo × Option MDict) (n : Nat) :
    detectLineStep st (headerLine n) =
      (finalize st, some ⟨n, none, none, none, none, none⟩) := by
  have hEq : "Display ".data ++ natChars n = "Display".data ++ (' ' :: natChars n) := by
    rw [show "Display ".data = "Display".data ++ [' '] from by decide, List.append_assoc]
    rfl
  have hdata : (headerLine n).data = "Display ".data ++ natChars n := rfl
  have hne : ("Display ".data ++ natChars n).isEmpty = false := by
    obtain ⟨c, cs, hcs, -⟩ := natChars_cons n
    rw [show ("Display ".data ++ natChars n) = 'D' :: ("isplay ".data ++ natChars n) from rfl]
    rfl
  have hstart : startsL "Display".data ("Display ".data ++ natChars n) = true := by
    rw [hEq]
    unfold startsL
    rw [chopPre_append]
    rfl
  unfold detectLineStep
  rw [hdata, stripChars_header n]
  simp only [hne, Bool.false_eq_true, if_false, hstart, if_true, displayMatch_header n]
  rfl

theorem splitOnNl_append (x : List Char) (hx : '\n' ∉ x) (cs : List Char) :
    splitOnNl (x ++ '\n' :: cs) = x :: splitOnNl cs := by
  induction x with
  | nil => simp [splitOnNl]
  | cons c rest ih =>
    have hc : ¬(c = '\n') := fun hh => hx (hh ▸ List.mem_cons_self _ _)
    have ih' := ih (fun hm => hx (List.mem_cons_of_mem _ hm))
    simp only [List.cons_append, splitOnNl, if_neg hc, List.append_eq, ih']

theorem splitOnNl_nlJoin (ls : List (List Char)) (h : ∀ l ∈ ls, '\n' ∉ l)
    (hne : ls ≠ []) : splitOnNl (nlJoin ls) = ls := by
  induction ls with
  | nil => exact absurd rfl hne
  | cons x rest ih =>
    cases rest with
    | nil => exact splitOnNl_no_nl x (h x (List.mem_cons_self x []))
    | cons y rest' =>
      rw [show nlJoin (x :: y :: rest') = x ++ '\n' :: nlJoin (y :: rest') from rfl]
      rw [splitOnNl_append x (h x (List.mem_cons_self x _)) _]
      rw [ih (fun l hl => h l (List.mem_cons_of_mem _ hl)) (by simp)]

theorem pySplitlines_joinLines (lines : List String)
    (h : ∀ l ∈ lines, '\n' ∉ l.data ∧ l.data ≠ []) :
    pySplitlines (joinLines lines) = lines := by
  cases lines with
  | nil => rfl
  | cons x rest =>
    unfold pySplitlines joinLines
    rw [show (String.mk (nlJoin ((x :: rest).map String.data))).data
        = nlJoin ((x :: rest).map String.data) from rfl]
    rw [splitOnNl_nlJoin ((x :: rest).map String.data)
      (fun l hl => by
        obtain ⟨s, hs, hsl⟩ := List.mem_map.mp hl
        exact hsl ▸ (h s hs).1)
      (by simp)]
    have hlast : ((x :: rest).map String.data).getLast? =
        Option.map String.data ((x :: rest).getLast?) :=
      List.getLast?_map String.data (x :: rest)
    have hgl : (x :: rest).getLast? = some ((x :: rest).getLast (by simp)) :=
      List.getLast?_eq_getLast _ _
    have hmem : (x :: rest).getLast (by simp) ∈ x :: rest := List.getLast_mem _
    have hgd : ((x :: rest).getLast (by simp)).data ≠ [] := (h _ hmem).2
    rw [hlast, hgl]
    obtain ⟨c, cs, hcs⟩ : ∃ c cs, ((x :: rest).getLast (by simp)).data = c :: cs := by
      cases hd : ((x :: rest).getLast (by simp)).data with
      | nil => exact absurd hd hgd
      | cons c cs => exact ⟨c, cs, rfl⟩
    rw [show Option.map String.data (some ((x :: rest).getLast (by simp)))
        = some ((x :: rest).getLast (by simp)).data from rfl, hcs]
    simp only []
    rw [List.map_map]
    rw [show (String.mk ∘ String.data) = id from funext fun s => rfl, List.map_id]

theorem detectLines_wf (recs : List (Nat × List String))
    (hwf : ∀ r ∈ recs, ∀ b ∈ r.2, BodyOK b) :
    ∀ l ∈ detectLines recs, '\n' ∉ l.data ∧ l.data ≠ [] := by
  intro l hl
  unfold detectLines at hl
  obtain ⟨r, hr, hlr⟩ := List.mem_flatMap.mp hl
  rcases List.mem_cons.mp hlr with hhd | hbody
  · subst hhd
    constructor
    · intro hnl
      have hnl' : '\n' ∈ "Display ".data ++ natChars r.1 := hnl
      rcases List.mem_append.mp hnl' with hm | hm
      · revert hm; decide
      · exact ((natChars_facts r.1).2 '\n' hm).2.2 rfl
    · intro hd
      obtain ⟨c, cs, hcs, -⟩ := natChars_cons r.1
      have hd' : "Display ".data ++ natChars r.1 = [] := hd
      rw [hcs] at hd'
      exact absurd hd' (by simp)
  · exact ⟨(hwf r hr l hbody).2.1, (hwf r hr l hbody).1⟩

theorem detect_fold (recs : List (Nat × List String)) :
    ∀ (st : List MonitorInfo × Option MDict),
      (∀ r ∈ recs, ∀ b ∈ r.2, BodyOK b) →
      finalize (List.foldl detectLineStep st (detectLines recs)) =
        finalize st ++ recs.map (fun r => expectedInfo r.1 r.2) := by
  induction recs with
  | nil =>
    intro st _
    simp [detectLines]
  | cons r rest ih =>
    intro st hwf
    have hlines : detectLines (r :: rest) = (headerLine r.1 :: r.2) ++ detectLines rest := by
      simp [detectLines]
    rw [hlines, List.foldl_append, List.foldl_cons, detectLineStep_header st r.1,
      fold_body r.2 (finalize st) _
        (fun b hb => (hwf r (List.mem_cons_self r rest) b hb).2.2.2),
      ih _ (fun q hq b hb => hwf q (List.mem_cons_of_mem _ hq) b hb)]
    rw [show finalize (finalize st,
          some (List.foldl dictStep ⟨r.1, none, none, none, none, none⟩ r.2))
        = finalize st ++
            [createMonitorInfo (List.foldl dictStep ⟨r.1, none, none, none, none, none⟩ r.2)]
      from rfl]
    rw [create_fold r.1 r.2]
    simp [List.append_assoc]

/-- C5: for every well-formed detection output of N header lines with their
body lines, the parser returns exactly N identities in header order, each
field being the last-seen value for its recognized key; a record with no
body lines yields bus −1, "Unknown" manufacturer/model and empty
serial/EDID. -/
theorem detect_parser_records (recs : List (Nat × List String))
    (hwf : ∀ r ∈ recs, ∀ b ∈ r.2, BodyOK b) :
    parseDetectOutput (joinLines (detectLines recs)) =
      recs.map (fun r => expectedInfo r.1 r.2)
    ∧ ∀ n, expectedInfo n [] =
        { display_number := n, i2c_bus := -1, manufacturer := "Unknown",
          model := "Unknown", serial := "", edid := "" } := by
  constructor
  · unfold parseDetectOutput
    rw [pySplitlines_joinLines (detectLines recs) (detectLines_wf recs hwf)]
    have hfold := detect_fold recs ([], none) hwf
    simpa [finalize] using hfold
  · intro n
    rfl

/-- C5 witness: two records — one with key/value lines (with a repeated
`Model` key) and one empty record. -/
theorem detect_parser_records_witness :
    parseDetectOutput (joinLines (detectLines
        [(1, ["Model: Foo", "I2C bus: /dev/i2c-3", "Model: Bar"]), (2, [])])) =
      [⟨1, 3, "Unknown", "Bar", "", ""⟩, ⟨2, -1, "Unknown", "Unknown", "", ""⟩] := by
  have h := (detect_parser_records
    [(1, ["Model: Foo", "I2C bus: /dev/i2c-3", "Model: Bar"]), (2, [])] (by decide)).1
  rw [h]
  decide

/-! ### Capabilities parser (`DDCUtil.get_capabilities`) -/

/-- Python `f"{v:#04x}"`: `0x` plus at least two lowercase hex digits. -/
def pyHexFmt04 (v : Nat) : String :=
  let ds := hexCharsLower v
  String.mk ('0' :: 'x' :: (if ds.length < 2 then '0' :: ds else ds))

/-- `DDCUtil.DEFAULT_VALUE_NAMES`. -/
def DEFAULT_VALUE_NAMES (feature_code : Nat) : List (Nat × String) :=
  match feature_code with
  | 0x8D => [(0x01, "Mute"), (0x02, "Unmute")]
  | 0x60 => [(0x01, "VGA-1"), (0x02, "VGA-2"), (0x03, "DVI-1"), (0x04, "DVI-2"),
             (0x0F, "DisplayPort-1"), (0x10, "DisplayPort-2"), (0x11, "HDMI-1"),
             (0x12, "HDMI-2"), (0x13, "HDMI-3"), (0x14, "HDMI-4")]
  | 0x14 => [(0x01, "sRGB"), (0x02, "Native"), (0x03, "4000K"), (0x04, "5000K"),
             (0x05, "6500K"), (0x06, "7500K"), (0x07, "8200K"), (0x08, "9300K"),
             (0x09, "10000K"), (0x0A, "11500K"), (0x0B, "User 1"), (0x0C, "User 2"),
             (0x0D, "User 3")]
  | 0xDC => [(0x00, "Standard"), (0x01, "Productivity"), (0x02, "Mixed"),
             (0x03, "Movie"), (0x04, "User"), (0x05, "Games"), (0x06, "Sports"),
             (0x07, "Professional"), (0x08, "Standard 2"), (0xF0, "Dynamic Contrast")]
  | _ => []

/-- `DDCUtil._get_default_value_name`. -/
def getDefaultValueName (feature_code value : Nat) : String :=
  match (DEFAULT_VALUE_NAMES feature_code).lookup value with
  | some name => name
  | none => "Value " ++ pyHexFmt04 value

/-- Python regex `\w` (ASCII approximation). -/
def isWordChar (c : Char) : Bool := c.isAlphanum || c = '_'

/-- `[0-9A-Fa-f]`. -/
def isHexDigitB (c : Char) : Bool := (digitVal? 16 c).isSome

/-- `int` of a two-hex-digit group. -/
def hexPairVal (a b : Char) : Nat :=
  (digitVal? 16 a).getD 0 * 16 + (digitVal? 16 b).getD 0

/-- `re.findall(r'\b([0-9A-Fa-f]{2})\b', s)`: left-to-right scan for
non-overlapping two-hex-digit matches with a word boundary on each side;
`prev` is the character preceding the current position. -/
def findTwoHex (prev : Option Char) : List Char → List Nat
  | a :: b :: rest =>
    if isHexDigitB a && isHexDigitB b &&
        !(match prev with | some p => isWordChar p | none => false) &&
        !(match rest with | c :: _ => isWordChar c | [] => false) then
      hexPairVal a b :: findTwoHex (some b) rest
    else findTwoHex (some a) (b :: rest)
  | _ => []

/-- `re.sub(r'\([^)]*\)\s*$', '', s)`: remove a trailing parenthetical group
(whose body contains no `)`) together with following whitespace; the match
is leftmost, so the removed `(` is the first one after the last earlier `)`. -/
def subTrailParen (cs : List Char) : List Char :=
  match cs.reverse.dropWhile pyIsSpace with
  | [] => cs
  | c :: rbody =>
    if c = ')' then
      let post := (rbody.takeWhile (fun x => x != ')')).reverse
      let pre := (rbody.dropWhile (fun x => x != ')')).reverse
      if post.contains '(' then pre ++ post.takeWhile (fun x => x != '(')
      else cs
    else cs

/-- `s.split(pat, 1)[1]`: the rest of `cs` after the first occurrence of
`pat`, when `pat` occurs. -/
def splitAfterFirst (pat : List Char) : List Char → Option (List Char)
  | [] => chopPre pat []
  | c :: rest =>
    match chopPre pat (c :: rest) with
    | some after => some after
    | none => splitAfterFirst pat rest

/-- `re.match(r"\s*Feature:\s*([0-9A-Fa-f]{2})\s*\(([^)]+)\)", line)`,
reduced to the feature code it captures. -/
def featMatch (cs : List Char) : Option Nat :=
  match chopPre "Feature:".data (cs.dropWhile pyIsSpace) with
  | none => none
  | some cs2 =>
    match cs2.dropWhile pyIsSpace with
    | a :: b :: cs3 =>
      if isHexDigitB a && isHexDigitB b then
        match cs3.dropWhile pyIsSpace with
        | '(' :: cs4 =>
          if (cs4.takeWhile (fun c => c != ')')).isEmpty then none
          else if cs4.contains ')' then some (hexPairVal a b)
          else none
        | _ => none
      else none
    | _ => none

/-- `re.match(r"\s*([0-9A-Fa-f]{2}):\s*(.+)", line)` with the captured name
stripped (`match.group(2).strip()`). -/
def valueMatch (cs : List Char) : Option (Nat × String) :=
  match cs.dropWhile pyIsSpace with
  | a :: b :: ':' :: rest =>
    if isHexDigitB a && isHexDigitB b && !rest.isEmpty then
      some (hexPairVal a b, String.mk (stripChars rest))
    else none
  | _ => none

/-- The loop state of `get_capabilities`: the supported set (as an
insertion-ordered duplicate-free list), the current-feature cursor, and the
per-feature option lists (total function, defaulting to `[]`). -/
structure CapsSt where
  supported : List Nat
  current_feature : Option Nat
  feature_values : Nat → List (Nat × String)

/-- Python `set.add`. -/
def addSupported (s : List Nat) (c : Nat) : List Nat :=
  if c ∈ s then s else s ++ [c]

/-- One line of the `get_capabilities` parsing loop: a `Feature:` header
opens a feature context; within a context, a line containing `Values:`
contributes inline two-hex-digit values named from the default table, and a
`code: name` line contributes one value with its free-text name. -/
def capsLineStep (st : CapsSt) (rawLine : String) : CapsSt :=
  let line := rawLine.data
  match featMatch line with
  | some code =>
    { st with supported := addSupported st.supported code,
              current_feature := some code }
  | none =>
    match st.current_feature with
    | none => st
    | some cf =>
      if hasSub "Values:".data line then
        let values_part :=
          stripChars (subTrailParen ((splitAfterFirst "Values:".data line).getD []))
        let inline_values := findTwoHex none values_part
        { st with feature_values := fun c =>
            if c = cf then
              st.feature_values cf ++
                inline_values.map (fun v => (v, getDefaultValueName cf v))
            else st.feature_values c }
      else
        match valueMatch line with
        | some (v, name) =>
          { st with feature_values := fun c =>
              if c = cf then st.feature_values cf ++ [(v, name)]
              else st.feature_values c }
        | none => st

/-- `DDCUtil.get_capabilities` applied to the tool's stdout: the supported
feature codes and the per-feature option lists. -/
def parseCapabilities (stdout : String) : List Nat × (Nat → List (Nat × String)) :=
  let st := (pySplitlines stdout).foldl capsLineStep ⟨[], none, fun _ => []⟩
  (st.supported, st.feature_values)

/-! Rendering of the two capability formats of C6. -/

/-- Lowercase hex digit characters. -/
def hexDigitChar (n : Nat) : Char := "0123456789abcdef".data.getD n '0'

/-- Two-hex-digit rendering of a value below 256. -/
def hex2 (v : Nat) : List Char := [hexDigitChar (v / 16), hexDigitChar (v % 16)]

/-- Space-separated token list. -/
def spaceJoin : List (List Char) → List Char
  | [] => []
  | [x] => x
  | x :: y :: rest => x ++ ' ' :: spaceJoin (y :: rest)

/-- A `Feature: <code> (<description>)` line. -/
def featureLine (f : Nat) : String :=
  String.mk ("Feature: ".data ++ hex2 f ++ " (Feature)".data)

/-- An all-on-one-line `Values:` listing. -/
def inlineValuesLine (vs : List Nat) : String :=
  String.mk ("   Values: ".data ++ spaceJoin (vs.map hex2))

/-- A one-value-per-line `code: name` listing entry. -/
def valueLine (v : Nat) (name : String) : String :=
  String.mk ("      ".data ++ hex2 v ++ ": ".data ++ name.data)

/-- Capabilities text presenting a feature's values inline. -/
def capsInlineText (f : Nat) (vs : List Nat) : String :=
  joinLines [featureLine f, inlineValuesLine vs]

/-- Capabilities text presenting the same values one per line. -/
def capsPerLineText (f : Nat) (rows : List (Nat × String)) : String :=
  joinLines (featureLine f :: rows.map (fun r => valueLine r.1 r.2))

/-- A value name the per-line format can carry faithfully: non-empty,
newline-free, already stripped, and not making its line look like a
`Values:` line. -/
def NameOK (v : Nat) (name : String) : Prop :=
  name.data ≠ [] ∧ '\n' ∉ name.data ∧ '\r' ∉ name.data ∧
  stripChars name.data = name.data ∧
  hasSub "Values:".data (valueLine v name).data = false

instance (v : Nat) : DecidablePred (NameOK v) := fun name => by
  unfold NameOK
  infer_instance

/-! ### Capabilities parser lemmas -/

theorem chopPre_head_ne {p c : Char} (h : c ≠ p) (ps cs : List Char) :
    chopPre (p :: ps) (c :: cs) = none := by
  simp [chopPre, h]

theorem hexDigitChar_facts : ∀ k, k < 16 →
    isHexDigitB (hexDigitChar k) = true ∧ pyIsSpace (hexDigitChar k) = false ∧
    hexDigitChar k ≠ '\n' ∧ hexDigitChar k ≠ ')' ∧
    (digitVal? 16 (hexDigitChar k)).getD 0 = k := by decide

theorem hexDigitChar_ne_F : ∀ k, k < 16 → hexDigitChar k ≠ 'F' := by decide

theorem hexPairVal_hex2 (v : Nat) (hv : v < 256) :
    hexPairVal (hexDigitChar (v / 16)) (hexDigitChar (v % 16)) = v := by
  have h1 : v / 16 < 16 := by omega
  have h2 : v % 16 < 16 := by omega
  unfold hexPairVal
  rw [(hexDigitChar_facts _ h1).2.2.2.2, (hexDigitChar_facts _ h2).2.2.2.2]
  omega

theorem hasSub_of_startsL {pat cs : List Char} (h : startsL pat cs = true) :
    hasSub pat cs = true := by
  cases cs with
  | nil =>
    cases pat with
    | nil => rfl
    | cons p ps => simp [startsL, chopPre] at h
  | cons c rest => simp [hasSub, h]

theorem hasSub_cons {pat cs : List Char} (c : Char) (h : hasSub pat cs = true) :
    hasSub pat (c :: cs) = true := by
  simp [hasSub, h]

theorem spaceJoin_mem {c : Char} : ∀ (ls : List (List Char)), c ∈ spaceJoin ls →
    c = ' ' ∨ ∃ l ∈ ls, c ∈ l := by
  intro ls
  induction ls with
  | nil => intro h; exact absurd h (List.not_mem_nil c)
  | cons x rest ih =>
    cases rest with
    | nil => intro h; exact Or.inr ⟨x, List.mem_cons_self x [], h⟩
    | cons y rest' =>
      intro h
      rw [show spaceJoin (x :: y :: rest') = x ++ ' ' :: spaceJoin (y :: rest') from rfl] at h
      rcases List.mem_append.mp h with h1 | h2
      · exact Or.inr ⟨x, List.mem_cons_self x _, h1⟩
      · rcases List.mem_cons.mp h2 with h3 | h3
        · exact Or.inl h3
        · rcases ih h3 with h4 | ⟨l, hl, hcl⟩
          · exact Or.inl h4
          · exact Or.inr ⟨l, List.mem_cons_of_mem _ hl, hcl⟩

theorem hex2_mem {c : Char} {v : Nat} (hv : v < 256) (h : c ∈ hex2 v) :
    isHexDigitB c = true ∧ pyIsSpace c = false ∧ c ≠ '\n' ∧ c ≠ ')' := by
  have h1 : v / 16 < 16 := by omega
  have h2 : v % 16 < 16 := by omega
  rcases List.mem_cons.mp h with hc | h'
  · subst hc
    exact ⟨(hexDigitChar_facts _ h1).1, (hexDigitChar_facts _ h1).2.1,
      (hexDigitChar_facts _ h1).2.2.1, (hexDigitChar_facts _ h1).2.2.2.1⟩
  · rcases List.mem_cons.mp h' with hc | h''
    · subst hc
      exact ⟨(hexDigitChar_facts _ h2).1, (hexDigitChar_facts _ h2).2.1,
        (hexDigitChar_facts _ h2).2.2.1, (hexDigitChar_facts _ h2).2.2.2.1⟩
    · exact absurd h'' (List.not_mem_nil c)

theorem spaceJoin_concat (vs : List Nat) (hvs : vs ≠ []) (hv : ∀ v ∈ vs, v < 256) :
    ∃ L c, spaceJoin (vs.map hex2) = L ++ [c] ∧ pyIsSpace c = false ∧ c ≠ ')' := by
  induction vs with
  | nil => exact absurd rfl hvs
  | cons v rest ih =>
    cases rest with
    | nil =>
      have h2 : v % 16 < 16 := by omega
      refine ⟨[hexDigitChar (v / 16)], hexDigitChar (v % 16), rfl,
        (hexDigitChar_facts _ h2).2.1, (hexDigitChar_facts _ h2).2.2.2.1⟩
    | cons w rest' =>
      obtain ⟨L, c, hL, hc1, hc2⟩ :=
        ih (by simp) (fun x hx => hv x (List.mem_cons_of_mem _ hx))
      refine ⟨hex2 v ++ ' ' :: L, c, ?_, hc1, hc2⟩
      rw [show spaceJoin ((v :: w :: rest').map hex2)
          = hex2 v ++ ' ' :: spaceJoin ((w :: rest').map hex2) from rfl, hL]
      simp

theorem stripChars_cons_space (cs : List Char) :
    stripChars (' ' :: cs) = stripChars cs := by
  unfold stripChars
  rw [List.dropWhile_cons_of_pos (show pyIsSpace ' ' = true from rfl)]

theorem spaceJoin_head (v : Nat) (rest : List Nat) :
    ∃ tl, spaceJoin ((v :: rest).map hex2) = hexDigitChar (v / 16) :: tl := by
  cases rest with
  | nil => exact ⟨[hexDigitChar (v % 16)], rfl⟩
  | cons w rest' =>
    exact ⟨hexDigitChar (v % 16) :: ' ' :: spaceJoin ((w :: rest').map hex2), rfl⟩

theorem stripChars_spaceJoin (vs : List Nat) (hv : ∀ v ∈ vs, v < 256) :
    stripChars (spaceJoin (vs.map hex2)) = spaceJoin (vs.map hex2) := by
  cases vs with
  | nil => rfl
  | cons v rest =>
    have hvlt : v < 256 := hv v (List.mem_cons_self v rest)
    have h1 : v / 16 < 16 := by omega
    obtain ⟨tl, htl⟩ := spaceJoin_head v rest
    obtain ⟨L, c, hL, hc1, _⟩ := spaceJoin_concat (v :: rest) (by simp) hv
    apply stripChars_of_ends
    · rw [htl]
      exact List.dropWhile_cons_of_neg (by simp [(hexDigitChar_facts _ h1).2.1])
    · rw [hL, List.reverse_append, List.reverse_singleton, List.singleton_append]
      exact List.dropWhile_cons_of_neg (by simp [hc1])

theorem featMatch_featureLine : ∀ f, f < 256 →
    featMatch (featureLine f).data = some f := by decide

theorem valueLine_data (v : Nat) (name : String) :
    (valueLine v name).data = ' ' :: ' ' :: ' ' :: ' ' :: ' ' :: ' ' ::
      (hexDigitChar (v / 16) :: hexDigitChar (v % 16) :: ':' :: ' ' :: name.data) := rfl

theorem featMatch_valueLine (v : Nat) (hv : v < 256) (name : String) :
    featMatch (valueLine v name).data = none := by
  have h1 : v / 16 < 16 := by omega
  unfold featMatch
  rw [valueLine_data]
  rw [List.dropWhile_cons_of_pos (by decide), List.dropWhile_cons_of_pos (by decide),
    List.dropWhile_cons_of_pos (by decide), List.dropWhile_cons_of_pos (by decide),
    List.dropWhile_cons_of_pos (by decide), List.dropWhile_cons_of_pos (by decide),
    List.dropWhile_cons_of_neg (by simp [(hexDigitChar_facts _ h1).2.1])]
  rw [show "Feature:".data = 'F' :: "eature:".data from rfl,
    chopPre_head_ne (hexDigitChar_ne_F _ h1)]

theorem valueMatch_valueLine (v : Nat) (hv : v < 256) (name : String)
    (hstrip : stripChars name.data = name.data) :
    valueMatch (valueLine v name).data = some (v, name) := by
  have h1 : v / 16 < 16 := by omega
  have h2 : v % 16 < 16 := by omega
  unfold valueMatch
  rw [valueLine_data]
  rw [List.dropWhile_cons_of_pos (by decide), List.dropWhile_cons_of_pos (by decide),
    List.dropWhile_cons_of_pos (by decide), List.dropWhile_cons_of_pos (by decide),
    List.dropWhile_cons_of_pos (by decide), List.dropWhile_cons_of_pos (by decide),
    List.dropWhile_cons_of_neg (by simp [(hexDigitChar_facts _ h1).2.1])]
  show (if isHexDigitB (hexDigitChar (v / 16)) && isHexDigitB (hexDigitChar (v % 16)) &&
      !(' ' :: name.data).isEmpty then
    some (hexPairVal (hexDigitChar (v / 16)) (hexDigitChar (v % 16)),
      String.mk (stripChars (' ' :: name.data)))
    else none) = some (v, name)
  rw [(hexDigitChar_facts _ h1).1, (hexDigitChar_facts _ h2).1,
    stripChars_cons_space, hstrip, hexPairVal_hex2 v hv]
  simp

theorem inlineValuesLine_data (vs : List Nat) :
    (inlineValuesLine vs).data
      = ' ' :: ' ' :: ' ' :: ("Values:".data ++ (' ' :: spaceJoin (vs.map hex2))) := rfl

theorem featMatch_inlineValuesLine (vs : List Nat) :
    featMatch (inlineValuesLine vs).data = none := by
  unfold featMatch
  rw [inlineValuesLine_data]
  rw [List.dropWhile_cons_of_pos (by decide), List.dropWhile_cons_of_pos (by decide),
    List.dropWhile_cons_of_pos (by decide)]
  rw [show "Values:".data ++ (' ' :: spaceJoin (vs.map hex2))
      = 'V' :: ("alues:".data ++ (' ' :: spaceJoin (vs.map hex2))) from rfl]
  rw [List.dropWhile_cons_of_neg (by decide)]
  rw [show "Feature:".data = 'F' :: "eature:".data from rfl,
    chopPre_head_ne (by decide)]

theorem hasSub_inlineValuesLine (vs : List Nat) :
    hasSub "Values:".data (inlineValuesLine vs).data = true := by
  rw [inlineValuesLine_data]
  apply hasSub_cons
  apply hasSub_cons
  apply hasSub_cons
  apply hasSub_of_startsL
  unfold startsL
  rw [chopPre_append]
  rfl

theorem splitAfterFirst_inline (vs : List Nat) :
    splitAfterFirst "Values:".data (inlineValuesLine vs).data
      = some (' ' :: spaceJoin (vs.map hex2)) := by
  have hne : ∀ (X : List Char), chopPre "Values:".data (' ' :: X) = none := by
    intro X
    rw [show "Values:".data = 'V' :: "alues:".data from rfl]
    exact chopPre_head_ne (by decide) _ _
  have step : ∀ X, splitAfterFirst "Values:".data (' ' :: X)
      = splitAfterFirst "Values:".data X := by
    intro X
    rw [show splitAfterFirst "Values:".data (' ' :: X)
        = (match chopPre "Values:".data (' ' :: X) with
           | some after => some after
           | none => splitAfterFirst "Values:".data X) from rfl, hne X]
  rw [inlineValuesLine_data, step, step, step]
  rw [show ("Values:".data ++ (' ' :: spaceJoin (vs.map hex2)))
      = 'V' :: ("alues:".data ++ (' ' :: spaceJoin (vs.map hex2))) from rfl]
  rw [show splitAfterFirst "Values:".data
        ('V' :: ("alues:".data ++ (' ' :: spaceJoin (vs.map hex2))))
      = (match chopPre "Values:".data
            ('V' :: ("alues:".data ++ (' ' :: spaceJoin (vs.map hex2)))) with
         | some after => some after
         | none => splitAfterFirst "Values:".data
             ("alues:".data ++ (' ' :: spaceJoin (vs.map hex2)))) from rfl]
  rw [show ('V' :: ("alues:".data ++ (' ' :: spaceJoin (vs.map hex2))))
      = "Values:".data ++ (' ' :: spaceJoin (vs.map hex2)) from rfl, chopPre_append]

theorem subTrailParen_inline (vs : List Nat) (hv : ∀ v ∈ vs, v < 256) :
    subTrailParen (' ' :: spaceJoin (vs.map hex2)) = ' ' :: spaceJoin (vs.map hex2) := by
  cases vs with
  | nil => rfl
  | cons v rest =>
    obtain ⟨L, c, hL, hc1, hc2⟩ := spaceJoin_concat (v :: rest) (by simp) hv
    unfold subTrailParen
    rw [hL]
    rw [show (' ' :: (L ++ [c])).reverse = c :: (L.reverse ++ [' ']) from by simp]
    rw [List.dropWhile_cons_of_neg (by simp [hc1])]
    simp only [if_neg hc2]

theorem findTwoHex_tokens : ∀ (vs : List Nat), (∀ v ∈ vs, v < 256) →
    ∀ (prev : Option Char),
      (match prev with | some p => isWordChar p | none => false) = false →
      findTwoHex prev (spaceJoin (vs.map hex2)) = vs := by
  intro vs
  induction vs with
  | nil => intro _ prev _; rfl
  | cons v rest ih =>
    intro hv prev hp
    have hvlt : v < 256 := hv v (List.mem_cons_self v rest)
    have h1 : v / 16 < 16 := by omega
    have h2 : v % 16 < 16 := by omega
    cases rest with
    | nil =>
      rw [show spaceJoin ([v].map hex2)
          = hexDigitChar (v / 16) :: hexDigitChar (v % 16) :: [] from rfl]
      simp only [findTwoHex, (hexDigitChar_facts _ h1).1, (hexDigitChar_facts _ h2).1, hp,
        Bool.not_false, Bool.and_true, Bool.true_and, if_true]
      rw [hexPairVal_hex2 v hvlt]
    | cons w rest' =>
      rw [show spaceJoin ((v :: w :: rest').map hex2)
          = hexDigitChar (v / 16) :: hexDigitChar (v % 16) :: ' '
              :: spaceJoin ((w :: rest').map hex2) from rfl]
      simp only [findTwoHex, (hexDigitChar_facts _ h1).1, (hexDigitChar_facts _ h2).1, hp,
        show isWordChar ' ' = false from by decide, Bool.not_false, Bool.and_true,
        Bool.true_and, if_true]
      rw [hexPairVal_hex2 v hvlt]
      obtain ⟨tl, htl⟩ := spaceJoin_head w rest'
      rw [htl]
      rw [show findTwoHex (some (hexDigitChar (v % 16))) (' ' :: hexDigitChar (w / 16) :: tl)
          = findTwoHex (some ' ') (hexDigitChar (w / 16) :: tl) from by
        simp [findTwoHex, show isHexDigitB ' ' = false from by decide]]
      rw [← htl]
      rw [ih (fun x hx => hv x (List.mem_cons_of_mem _ hx)) (some ' ') (by decide)]

theorem featureLine_wf (f : Nat) (hf : f < 256) :
    '\n' ∉ (featureLine f).data ∧ (featureLine f).data ≠ [] := by
  constructor
  · intro h
    have h' : '\n' ∈ "Feature: ".data ++ (hex2 f ++ " (Feature)".data) := h
    rcases List.mem_append.mp h' with hm | hm
    · revert hm; decide
    · rcases List.mem_append.mp hm with hm' | hm'
      · exact (hex2_mem hf hm').2.2.1 rfl
      · revert hm'; decide
  · intro h
    have h' : 'F' :: ("eature: ".data ++ (hex2 f ++ " (Feature)".data)) = [] := h
    exact absurd h' (by simp)

theorem inlineValuesLine_wf (vs : List Nat) (hv : ∀ v ∈ vs, v < 256) :
    '\n' ∉ (inlineValuesLine vs).data ∧ (inlineValuesLine vs).data ≠ [] := by
  constructor
  · intro h
    rw [inlineValuesLine_data] at h
    simp only [List.mem_cons] at h
    rcases h with h | h | h | h
    · exact absurd h (by decide)
    · exact absurd h (by decide)
    · exact absurd h (by decide)
    · rcases List.mem_append.mp h with hm | hm
      · revert hm; decide
      · rcases List.mem_cons.mp hm with hm' | hm'
        · exact absurd hm' (by decide)
        · rcases spaceJoin_mem _ hm' with h4 | ⟨l, hl, hcl⟩
          · exact absurd h4 (by decide)
          · obtain ⟨w, hw, hwl⟩ := List.mem_map.mp hl
            exact (hex2_mem (hv w hw) (hwl ▸ hcl)).2.2.1 rfl
  · intro h
    rw [inlineValuesLine_data] at h
    exact absurd h (by simp)

theorem valueLine_wf (v : Nat) (hv : v < 256) (name : String) (hn : '\n' ∉ name.data) :
    '\n' ∉ (valueLine v name).data ∧ (valueLine v name).data ≠ [] := by
  have h1 : v / 16 < 16 := by omega
  have h2 : v % 16 < 16 := by omega
  constructor
  · intro h
    rw [valueLine_data] at h
    simp only [List.mem_cons] at h
    rcases h with h | h | h | h | h | h | h | h | h | h | h
    · exact absurd h (by decide)
    · exact absurd h (by decide)
    · exact absurd h (by decide)
    · exact absurd h (by decide)
    · exact absurd h (by decide)
    · exact absurd h (by decide)
    · exact (hexDigitChar_facts _ h1).2.2.1 h.symm
    · exact (hexDigitChar_facts _ h2).2.2.1 h.symm
    · exact absurd h (by decide)
    · exact absurd h (by decide)
    · exact hn h
  · intro h
    rw [valueLine_data] at h
    exact absurd h (by simp)

theorem capsLineStep_featureLine (st : CapsSt) (f : Nat) (hf : f < 256) :
    capsLineStep st (featureLine f) =
      { st with supported := addSupported st.supported f,
                current_feature := some f } := by
  simp only [capsLineStep, featMatch_featureLine f hf]

theorem capsLineStep_inline (st : CapsSt) (cf : Nat) (hcf : st.current_feature = some cf)
    (vs : List Nat) (hv : ∀ v ∈ vs, v < 256) :
    capsLineStep st (inlineValuesLine vs) =
      { st with feature_values := fun c =>
          if c = cf then
            st.feature_values cf ++ vs.map (fun v => (v, getDefaultValueName cf v))
          else st.feature_values c } := by
  simp only [capsLineStep, featMatch_inlineValuesLine vs, hcf, hasSub_inlineValuesLine vs,
    if_true, splitAfterFirst_inline vs, Option.getD_some]
  rw [subTrailParen_inline vs hv, stripChars_cons_space, stripChars_spaceJoin vs hv,
    findTwoHex_tokens vs hv none rfl]

theorem caps_rows_fold : ∀ (rows : List (Nat × String)) (st : CapsSt) (cf : Nat),
    st.current_feature = some cf →
    (∀ r ∈ rows, r.1 < 256 ∧ stripChars r.2.data = r.2.data ∧
      hasSub "Values:".data (valueLine r.1 r.2).data = false) →
    List.foldl capsLineStep st (rows.map (fun r => valueLine r.1 r.2)) =
      { st with feature_values := fun c =>
          if c = cf then st.feature_values cf ++ rows else st.feature_values c } := by
  intro rows
  induction rows with
  | nil =>
    intro st cf hcf _
    rw [show (fun c => if c = cf then st.feature_values cf ++ ([] : List (Nat × String))
          else st.feature_values c) = st.feature_values from
      funext fun c => by by_cases h : c = cf <;> simp [h]]
    rfl
  | cons r rest ih =>
    intro st cf hcf hrows
    obtain ⟨hr1, hr2, hr3⟩ := hrows r (List.mem_cons_self r rest)
    rw [List.map_cons, List.foldl_cons]
    have hstep : capsLineStep st (valueLine r.1 r.2) =
        { st with feature_values := fun c =>
            if c = cf then st.feature_values cf ++ [r] else st.feature_values c } := by
      simp only [capsLineStep, featMatch_valueLine r.1 hr1 r.2, hcf, hr3,
        Bool.false_eq_true, if_false, valueMatch_valueLine r.1 hr1 r.2 hr2]
    rw [hstep]
    rw [ih { st with feature_values := fun c =>
          if c = cf then st.feature_values cf ++ [r] else st.feature_values c } cf hcf
        (fun x hx => hrows x (List.mem_cons_of_mem _ hx))]
    congr 1
    funext c
    by_cases h : c = cf <;> simp [h]

/-- C6 (amended): a feature's value set rendered as a single inline
`Values:` line parses to the option list pairing each value with its
built-in default name, and the same values rendered as per-line
`code: name` rows carrying exactly those default names parse to the same
list — the two formats therefore yield equal option lists (original order
preserved); when the per-line names differ from the default names the lists
differ, so equality holds only under this proviso. -/
theorem capabilities_format_equiv (f : Nat) (hf : f < 256) (vs : List Nat)
    (hv : ∀ v ∈ vs, v < 256)
    (hnames : ∀ v ∈ vs, NameOK v (getDefaultValueName f v)) :
    (parseCapabilities (capsInlineText f vs)).2 f =
      vs.map (fun v => (v, getDefaultValueName f v))
    ∧ (parseCapabilities (capsPerLineText f
        (vs.map (fun v => (v, getDefaultValueName f v))))).2 f =
      vs.map (fun v => (v, getDefaultValueName f v)) := by
  constructor
  · unfold parseCapabilities capsInlineText
    rw [pySplitlines_joinLines [featureLine f, inlineValuesLine vs]
      (by
        intro l hl
        rcases List.mem_cons.mp hl with h | h
        · exact h ▸ ⟨(featureLine_wf f hf).1, (featureLine_wf f hf).2⟩
        · rcases List.mem_cons.mp h with h' | h'
          · exact h' ▸ ⟨(inlineValuesLine_wf vs hv).1, (inlineValuesLine_wf vs hv).2⟩
          · exact absurd h' (List.not_mem_nil l))]
    rw [List.foldl_cons, capsLineStep_featureLine _ f hf, List.foldl_cons, List.foldl_nil]
    rw [capsLineStep_inline _ f rfl vs hv]
    simp
  · unfold parseCapabilities capsPerLineText
    rw [pySplitlines_joinLines
      (featureLine f :: (vs.map (fun v => (v, getDefaultValueName f v))).map
        (fun r => valueLine r.1 r.2))
      (by
        intro l hl
        rcases List.mem_cons.mp hl with h | h
        · exact h ▸ ⟨(featureLine_wf f hf).1, (featureLine_wf f hf).2⟩
        · obtain ⟨r, hr, hrl⟩ := List.mem_map.mp h
          obtain ⟨v, hvmem, hvr⟩ := List.mem_map.mp hr
          subst hvr
          exact hrl ▸ ⟨(valueLine_wf v (hv v hvmem) _ (hnames v hvmem).2.1).1,
            (valueLine_wf v (hv v hvmem) _ (hnames v hvmem).2.1).2⟩)]
    rw [List.foldl_cons, capsLineStep_featureLine _ f hf]
    rw [caps_rows_fold (vs.map fun v => (v, getDefaultValueName f v)) _ f rfl
      (by
        intro r hr
        obtain ⟨v, hvmem, hvr⟩ := List.mem_map.mp hr
        subst hvr
        exact ⟨hv v hvmem, (hnames v hvmem).2.2.2.1, (hnames v hvmem).2.2.2.2⟩)]
    simp

/-- C6 witness: feature `0x60` with values `0x11`, `0x0F` and the default
names `HDMI-1`, `DisplayPort-1`. -/
theorem capabilities_format_equiv_witness :
    (parseCapabilities (capsInlineText 0x60 [0x11, 0x0F])).2 0x60 =
      [(0x11, "HDMI-1"), (0x0F, "DisplayPort-1")]
    ∧ (parseCapabilities (capsPerLineText 0x60
        [(0x11, "HDMI-1"), (0x0F, "DisplayPort-1")])).2 0x60 =
      [(0x11, "HDMI-1"), (0x0F, "DisplayPort-1")] := by
  have h := capabilities_format_equiv 0x60 (by decide) [0x11, 0x0F] (by decide) (by decide)
  have hrows : [0x11, 0x0F].map (fun v => (v, getDefaultValueName 0x60 v)) =
      [(0x11, "HDMI-1"), (0x0F, "DisplayPort-1")] := by decide
  rw [hrows] at h
  exact h

/-- C6 counterexample: the same value `0x11` of feature `0x60` expressed as
an inline `Values:` line versus a `code: name` line with a non-default name
gives option lists that are not equal as sets. -/
theorem capabilities_format_counterexample :
    (parseCapabilities (joinLines ["Feature: 60 (Input Source)", "   Values: 11"])).2 0x60 =
      [(0x11, "HDMI-1")]
    ∧ (parseCapabilities (joinLines ["Feature: 60 (Input Source)", "   11: My Input"])).2 0x60 =
      [(0x11, "My Input")]
    ∧ ((0x11, "HDMI-1") : Nat × String) ∉ [((0x11, "My Input") : Nat × String)] := by
  exact ⟨by decide, by decide, by decide⟩

end DdcutilGtk
